import Mathlib

/-!
Verification of the continuous-capture and timestamped-transcription pipeline
of the `speechtotext` repository.

The repository contains two implementations of the recording pipeline:
`speech_to_text.py` (the full application) and `improved_speech_to_text.py`
(a reduced variant).  Definitions below are shallow embeddings of the Python
functions; where the two files implement the same operation differently, the
embedding of the `speech_to_text.py` version carries the suffix `_v1` and the
`improved_speech_to_text.py` version the suffix `_improved`.

Waveforms are modelled as lists of chunks: each captured segment contributes
one chunk carrying its sequence id and duration in milliseconds, and inserted
silence contributes a silence chunk.  External effects (microphone, files,
recognition services) enter as explicit parameters.
-/

/-- One piece of a combined waveform: either the audio of a captured segment
(identified by its sequence id, with its duration in milliseconds) or a run of
inserted silence. -/
inductive Chunk where
  | seg (sid : Nat) (dur : Nat)
  | silence (dur : Nat)
deriving DecidableEq

/-- A captured audio segment as handled by `merge_audio_segments`: its
sequence id, its duration in milliseconds, and whether writing it to a
temporary file and loading it back succeeds (`speech_to_text.py` skips
segments for which either step raises). -/
structure AudioSeg where
  sid : Nat
  dur : Nat
  readable : Bool
deriving DecidableEq

/-- Result of the merge engine: no recording produced, a single segment
passed through unchanged, or a combined waveform. -/
inductive MergeResult where
  | noRecording
  | single (s : AudioSeg)
  | merged (w : List Chunk)
deriving DecidableEq

/-- Duration in milliseconds of one chunk. -/
def chunkDur : Chunk → Nat
  | .seg _ d => d
  | .silence d => d

/-- Total duration in milliseconds of a chunk list (pydub `len(combined)`). -/
def chunksDur (w : List Chunk) : Nat :=
  (w.map chunkDur).sum

/-- The combine loop of `speech_to_text.py::merge_audio_segments`
(`combined += segment_audio` for each loaded segment, no gap inserted). -/
def combineV1 (okSegs : List AudioSeg) : List Chunk :=
  okSegs.foldl (fun acc s => acc ++ [Chunk.seg s.sid s.dur]) []

/-- The combine loop of `improved_speech_to_text.py::merge_audio_segments`
(`combined += segment_audio` followed by `combined += AudioSegment.silent(duration=200)`
for each segment, so a 200 ms gap is appended after every segment). -/
def combineImproved (segs : List AudioSeg) : List Chunk :=
  segs.foldl (fun acc s => acc ++ [Chunk.seg s.sid s.dur, Chunk.silence 200]) []

/-- `speech_to_text.py::merge_audio_segments`.  Zero segments: return without
producing a recording.  One segment: pass it through as `audio_data`.
Otherwise: write each segment to a temp file skipping failures, abort when
none survive, combine the readable segments with no gap, abort when the
combined waveform is empty, and on export failure fall back to the first
captured segment.  `exportOk` abstracts whether the final
`combined.export(...)` call succeeds. -/
def merge_audio_segments_v1 (exportOk : Bool) (segs : List AudioSeg) : MergeResult :=
  match segs with
  | [] => .noRecording
  | [s] => .single s
  | s0 :: _ =>
    let ok := segs.filter (fun s => s.readable)
    if ok.isEmpty then .noRecording
    else
      let combined := combineV1 ok
      if chunksDur combined = 0 then .noRecording
      else if exportOk then .merged combined
      else .single s0

/-- `improved_speech_to_text.py::merge_audio_segments`.  Zero segments:
return.  One segment: pass through.  Otherwise combine all segments, with a
200 ms silence appended after each one; any per-segment write/read failure
propagates to the outer handler, which falls back to the first segment. -/
def merge_audio_segments_improved (segs : List AudioSeg) : MergeResult :=
  match segs with
  | [] => .noRecording
  | [s] => .single s
  | s0 :: _ =>
    if segs.all (fun s => s.readable) then .merged (combineImproved segs)
    else .single s0

/-- Sum of the durations of a list of segments (milliseconds). -/
def totalDur (segs : List AudioSeg) : Nat :=
  (segs.map (fun s => s.dur)).sum

/-- Duration in milliseconds of a merge result. -/
def mergedDuration : MergeResult → Nat
  | .noRecording => 0
  | .single s => s.dur
  | .merged w => chunksDur w

/-- The sequence id carried by a chunk, if it is segment audio. -/
def chunkSid : Chunk → Option Nat
  | .seg sid _ => some sid
  | .silence _ => none

/-- The sequence ids of the captured segments appearing in a merge result, in
waveform order (silence chunks carry no id). -/
def segIdsOf : MergeResult → List Nat
  | .noRecording => []
  | .single s => [s.sid]
  | .merged w => w.filterMap chunkSid

/-- The chunk list `combineImproved` produces, in direct recursive form:
every segment is followed by a 200 ms silence chunk. -/
def chunksWithGaps : List AudioSeg → List Chunk
  | [] => []
  | s :: rest => Chunk.seg s.sid s.dur :: Chunk.silence 200 :: chunksWithGaps rest

theorem combineV1_eq_map (l : List AudioSeg) :
    combineV1 l = l.map (fun s => Chunk.seg s.sid s.dur) := by
  suffices h : ∀ init : List Chunk,
      l.foldl (fun acc s => acc ++ [Chunk.seg s.sid s.dur]) init
        = init ++ l.map (fun s => Chunk.seg s.sid s.dur) by
    simpa using h []
  induction l with
  | nil => intro init; simp
  | cons a t ih =>
    intro init
    simp [List.foldl_cons, ih]

theorem combineImproved_eq_chunksWithGaps (l : List AudioSeg) :
    combineImproved l = chunksWithGaps l := by
  suffices h : ∀ init : List Chunk,
      l.foldl (fun acc s => acc ++ [Chunk.seg s.sid s.dur, Chunk.silence 200]) init
        = init ++ chunksWithGaps l by
    simpa using h []
  induction l with
  | nil => intro init; simp [chunksWithGaps]
  | cons a t ih =>
    intro init
    simp [List.foldl_cons, ih, chunksWithGaps]

theorem chunksDur_segMap (l : List AudioSeg) :
    chunksDur (l.map fun s => Chunk.seg s.sid s.dur) = totalDur l := by
  induction l with
  | nil => rfl
  | cons a t ih => simp [chunksDur, totalDur, chunkDur] at ih ⊢; omega

theorem chunksDur_chunksWithGaps (l : List AudioSeg) :
    chunksDur (chunksWithGaps l) = totalDur l + 200 * l.length := by
  induction l with
  | nil => rfl
  | cons a t ih =>
    simp [chunksDur, totalDur, chunkDur, chunksWithGaps] at ih ⊢
    omega

theorem segIds_segMap (l : List AudioSeg) :
    (l.map fun s => Chunk.seg s.sid s.dur).filterMap chunkSid
      = l.map (fun s => s.sid) := by
  induction l with
  | nil => rfl
  | cons a t ih => simp [chunkSid] at ih ⊢; exact ih

theorem segIds_chunksWithGaps (l : List AudioSeg) :
    (chunksWithGaps l).filterMap chunkSid = l.map (fun s => s.sid) := by
  induction l with
  | nil => rfl
  | cons a t ih => simp [chunksWithGaps, chunkSid] at ih ⊢; exact ih

/-- Characterization of both merge implementations on two or more readable,
positive-duration segments: `speech_to_text.py` concatenates with no gaps,
`improved_speech_to_text.py` appends a 200 ms gap after every segment. -/
theorem merge_multi (segs : List AudioSeg) (hlen : 2 ≤ segs.length)
    (hr : ∀ s ∈ segs, s.readable = true) (hd : ∀ s ∈ segs, 0 < s.dur) :
    merge_audio_segments_v1 true segs
        = .merged (segs.map fun s => Chunk.seg s.sid s.dur) ∧
    merge_audio_segments_improved segs = .merged (chunksWithGaps segs) := by
  match segs, hlen with
  | s0 :: s1 :: rest, _ =>
    have hfil : (s0 :: s1 :: rest).filter (fun s => s.readable) = s0 :: s1 :: rest :=
      List.filter_eq_self.mpr (fun a ha => by simpa using hr a ha)
    have hdur : chunksDur (combineV1 (s0 :: s1 :: rest)) ≠ 0 := by
      rw [combineV1_eq_map, chunksDur_segMap]
      have h0 : 0 < s0.dur := hd s0 (by simp)
      simp [totalDur]
      omega
    have hall : (s0 :: s1 :: rest).all (fun s => s.readable) = true := by
      rw [List.all_eq_true]
      intro a ha
      simpa using hr a ha
    constructor
    · show merge_audio_segments_v1 true (s0 :: s1 :: rest) = _
      rw [merge_audio_segments_v1]
      rw [hfil]
      simp only [List.isEmpty_cons, if_false, Bool.false_eq_true]
      rw [if_neg hdur]
      simp [combineV1_eq_map]
      simp
    · have hred : merge_audio_segments_improved (s0 :: s1 :: rest)
          = if (s0 :: s1 :: rest).all (fun s => s.readable)
            then .merged (combineImproved (s0 :: s1 :: rest))
            else .single s0 := rfl
      rw [hred, hall]
      simp [combineImproved_eq_chunksWithGaps]

/-- Claim C3 counterexample: on two readable 1000 ms segments, the
`speech_to_text.py` merge inserts no silence at all, while the
`improved_speech_to_text.py` merge inserts a 200 ms gap after each of the two
segments, including after the last; neither produces the claimed shape of
exactly one gap between the pair and none after the last segment. -/
theorem C3_merge_gap_counterexample :
    merge_audio_segments_v1 true [⟨0, 1000, true⟩, ⟨1, 1000, true⟩]
        = .merged [Chunk.seg 0 1000, Chunk.seg 1 1000] ∧
    merge_audio_segments_improved [⟨0, 1000, true⟩, ⟨1, 1000, true⟩]
        = .merged [Chunk.seg 0 1000, Chunk.silence 200,
                   Chunk.seg 1 1000, Chunk.silence 200] ∧
    merge_audio_segments_v1 true [⟨0, 1000, true⟩, ⟨1, 1000, true⟩]
        ≠ .merged [Chunk.seg 0 1000, Chunk.silence 200, Chunk.seg 1 1000] ∧
    merge_audio_segments_improved [⟨0, 1000, true⟩, ⟨1, 1000, true⟩]
        ≠ .merged [Chunk.seg 0 1000, Chunk.silence 200, Chunk.seg 1 1000] := by
  refine ⟨by decide, by decide, by decide, by decide⟩

/-- Claim C3 (amended): given zero segments both merge implementations
produce no recording; given exactly one segment both return it unchanged;
given n ≥ 2 readable positive-duration segments, `speech_to_text.py`
concatenates them in capture order with no silence gap at all, while
`improved_speech_to_text.py` concatenates them in capture order appending one
fixed 200 ms silence gap after every segment, including after the last (n
gaps rather than n - 1). -/
theorem C3_merge_gap_structure_amended :
    (∀ e, merge_audio_segments_v1 e [] = .noRecording) ∧
    merge_audio_segments_improved [] = .noRecording ∧
    (∀ e s, merge_audio_segments_v1 e [s] = .single s) ∧
    (∀ s, merge_audio_segments_improved [s] = .single s) ∧
    (∀ segs : List AudioSeg, 2 ≤ segs.length →
      (∀ s ∈ segs, s.readable = true) → (∀ s ∈ segs, 0 < s.dur) →
      merge_audio_segments_v1 true segs
          = .merged (segs.map fun s => Chunk.seg s.sid s.dur) ∧
      merge_audio_segments_improved segs = .merged (chunksWithGaps segs)) :=
  ⟨fun _ => rfl, rfl, fun _ _ => rfl, fun _ => rfl, merge_multi⟩

/-- Witness for the amended C3 theorem at two concrete readable segments. -/
theorem C3_merge_gap_structure_amended_witness :
    merge_audio_segments_v1 true [⟨0, 800, true⟩, ⟨1, 900, true⟩]
        = .merged ([⟨0, 800, true⟩, ⟨1, 900, true⟩].map
            fun s : AudioSeg => Chunk.seg s.sid s.dur) ∧
    merge_audio_segments_improved [⟨0, 800, true⟩, ⟨1, 900, true⟩]
        = .merged (chunksWithGaps [⟨0, 800, true⟩, ⟨1, 900, true⟩]) :=
  C3_merge_gap_structure_amended.2.2.2.2 [⟨0, 800, true⟩, ⟨1, 900, true⟩]
    (by decide) (by decide) (by decide)

/-- Claim C4: for every non-empty sequence of readable, positive-duration
captured segments, the merged waveform of either implementation has duration
at least the sum of the individual segment durations, and the segments appear
in it in their original capture order. -/
theorem C4_merge_duration_order (segs : List AudioSeg) (hne : segs ≠ [])
    (hr : ∀ s ∈ segs, s.readable = true) (hd : ∀ s ∈ segs, 0 < s.dur) :
    totalDur segs ≤ mergedDuration (merge_audio_segments_v1 true segs) ∧
    segIdsOf (merge_audio_segments_v1 true segs) = segs.map (fun s => s.sid) ∧
    totalDur segs ≤ mergedDuration (merge_audio_segments_improved segs) ∧
    segIdsOf (merge_audio_segments_improved segs)
      = segs.map (fun s => s.sid) := by
  match segs, hne with
  | [a], _ =>
    have h1 : merge_audio_segments_v1 true [a] = .single a := rfl
    have h2 : merge_audio_segments_improved [a] = .single a := rfl
    rw [h1, h2]
    refine ⟨?_, rfl, ?_, rfl⟩ <;> simp [totalDur, mergedDuration]
  | s0 :: s1 :: rest, _ =>
    have hm := merge_multi (s0 :: s1 :: rest) (by simp) hr hd
    rw [hm.1, hm.2]
    refine ⟨?_, ?_, ?_, ?_⟩
    · simp only [mergedDuration]
      rw [chunksDur_segMap]
    · simp only [segIdsOf]
      rw [segIds_segMap]
    · simp only [mergedDuration]
      rw [chunksDur_chunksWithGaps]
      exact Nat.le_add_right _ _
    · simp only [segIdsOf]
      rw [segIds_chunksWithGaps]

/-- Witness for C4 at the spec's example: segments of 2000/1500/1800 ms merge
to at least 5300 ms in either implementation, with capture order preserved. -/
theorem C4_merge_duration_order_witness :
    totalDur [⟨0, 2000, true⟩, ⟨1, 1500, true⟩, ⟨2, 1800, true⟩]
        ≤ mergedDuration (merge_audio_segments_v1 true
            [⟨0, 2000, true⟩, ⟨1, 1500, true⟩, ⟨2, 1800, true⟩]) ∧
    segIdsOf (merge_audio_segments_v1 true
        [⟨0, 2000, true⟩, ⟨1, 1500, true⟩, ⟨2, 1800, true⟩])
      = [⟨0, 2000, true⟩, ⟨1, 1500, true⟩,
         (⟨2, 1800, true⟩ : AudioSeg)].map (fun s => s.sid) ∧
    totalDur [⟨0, 2000, true⟩, ⟨1, 1500, true⟩, ⟨2, 1800, true⟩]
        ≤ mergedDuration (merge_audio_segments_improved
            [⟨0, 2000, true⟩, ⟨1, 1500, true⟩, ⟨2, 1800, true⟩]) ∧
    segIdsOf (merge_audio_segments_improved
        [⟨0, 2000, true⟩, ⟨1, 1500, true⟩, ⟨2, 1800, true⟩])
      = [⟨0, 2000, true⟩, ⟨1, 1500, true⟩,
         (⟨2, 1800, true⟩ : AudioSeg)].map (fun s => s.sid) :=
  C4_merge_duration_order
    [⟨0, 2000, true⟩, ⟨1, 1500, true⟩, ⟨2, 1800, true⟩]
    (by decide) (by decide) (by decide)

/-- One input to an iteration of a capture loop: the `recognizer.listen`
call timed out waiting for speech, returned a captured segment (identified by
a sequence id), or raised some other transient error. -/
inductive CaptureEvent where
  | waitTimeout
  | captured (seg : Nat)
  | captureError
deriving DecidableEq

/-- Loop state of `speech_to_text.py::continuous_recording`: the shared
`is_recording` / `is_paused` flags (written by `stop_recording` /
`pause_recording` on the controller side) and the accumulated
`recording_segments` list. -/
structure ContState where
  isRecording : Bool
  isPaused : Bool
  segments : List Nat
deriving DecidableEq

/-- One iteration of the `while self.is_recording` body of
`speech_to_text.py::continuous_recording`.  While paused the body sleeps and
changes nothing.  A wait-timeout (`sr.WaitTimeoutError`) and any other
capture error just `continue`; a captured chunk is appended only when the
session is still recording and not paused.  The body itself never clears
`is_recording`: only an external `stop_recording` does. -/
def continuous_step (s : ContState) (e : CaptureEvent) : ContState :=
  if s.isPaused then s
  else
    match e with
    | .waitTimeout => s
    | .captured seg =>
        if s.isRecording ∧ ¬s.isPaused then { s with segments := s.segments ++ [seg] }
        else s
    | .captureError => s

/-- Loop state of `improved_speech_to_text.py::continuous_recording`: the
shared `is_recording` flag, the `recording_segments` list, and the local
`segment_count` / `silence_count` counters. -/
structure IContState where
  isRecording : Bool
  segments : List Nat
  segmentCount : Nat
  silenceCount : Nat
deriving DecidableEq

/-- One iteration of the `while self.is_recording` body of
`improved_speech_to_text.py::continuous_recording`.  A captured chunk is
appended and resets `silence_count`.  A wait-timeout increments
`silence_count`, and once `silence_count >= max_silence` (3) with at least
one captured segment, the body calls `stop_recording` (clearing
`is_recording`) and breaks.  Other errors just `continue`. -/
def improved_continuous_step (s : IContState) (e : CaptureEvent) : IContState :=
  match e with
  | .waitTimeout =>
      let sc := s.silenceCount + 1
      if 3 ≤ sc ∧ 0 < s.segmentCount then
        { s with silenceCount := sc, isRecording := false }
      else { s with silenceCount := sc }
  | .captured seg =>
      { s with segments := s.segments ++ [seg],
               segmentCount := s.segmentCount + 1,
               silenceCount := 0 }
  | .captureError => s

theorem continuous_step_timeout (s : ContState) :
    continuous_step s .waitTimeout = s := by
  unfold continuous_step
  by_cases h : s.isPaused <;> simp [h]

/-- Claim C1 counterexample: in `improved_speech_to_text.py` continuous mode,
starting from a recording session that already holds one captured segment,
three consecutive wait-timeouts clear `is_recording` — silence alone ends the
session, contradicting the claim that no number of consecutive silent
timeouts ever terminates it. -/
theorem C1_silence_stop_counterexample :
    (((fun st => improved_continuous_step st CaptureEvent.waitTimeout)^[3])
        { isRecording := true, segments := [0], segmentCount := 1,
          silenceCount := 0 }).isRecording = false := by
  decide

/-- Claim C1 (amended): in `speech_to_text.py` continuous mode a wait-timeout
leaves the loop state unchanged, so no number of consecutive silent timeouts
modifies the session or emits a segment, and recording ends only when an
external `stop()` clears `is_recording`.  In `improved_speech_to_text.py`
continuous mode, wait-timeouts never end the session while no segment has
been captured, and a wait-timeout arriving with fewer than two prior
consecutive silences never ends it; but once at least one segment exists, the
third consecutive wait-timeout auto-stops the session. -/
theorem C1_silence_never_stops_amended :
    (∀ (s : ContState) (n : ℕ),
        (fun st => continuous_step st CaptureEvent.waitTimeout)^[n] s = s) ∧
    (∀ (s : IContState) (n : ℕ), s.segmentCount = 0 →
        ((fun st => improved_continuous_step st CaptureEvent.waitTimeout)^[n] s).isRecording
          = s.isRecording) ∧
    (∀ s : IContState, s.silenceCount + 1 < 3 →
        (improved_continuous_step s CaptureEvent.waitTimeout).isRecording
          = s.isRecording) ∧
    (∀ s : IContState, 0 < s.segmentCount → 2 ≤ s.silenceCount →
        (improved_continuous_step s CaptureEvent.waitTimeout).isRecording
          = false) := by
  refine ⟨?_, ?_, ?_, ?_⟩
  · intro s n
    induction n with
    | zero => rfl
    | succ k ih =>
      rw [Function.iterate_succ_apply]
      show (fun st => continuous_step st CaptureEvent.waitTimeout)^[k]
          (continuous_step s CaptureEvent.waitTimeout) = s
      rw [continuous_step_timeout s]
      exact ih
  · intro s n h
    induction n generalizing s with
    | zero => rfl
    | succ k ih =>
      rw [Function.iterate_succ_apply]
      show ((fun st => improved_continuous_step st CaptureEvent.waitTimeout)^[k]
          (improved_continuous_step s CaptureEvent.waitTimeout)).isRecording
            = s.isRecording
      have hstep : improved_continuous_step s CaptureEvent.waitTimeout
          = { s with silenceCount := s.silenceCount + 1 } := by
        unfold improved_continuous_step
        simp [h]
      rw [hstep]
      exact ih _ h
  · intro s hlt
    unfold improved_continuous_step
    simp only
    rw [if_neg (by omega)]
  · intro s hseg hsil
    unfold improved_continuous_step
    simp only
    rw [if_pos ⟨by omega, hseg⟩]

/-- Witness for the amended C1 theorem at concrete loop states. -/
theorem C1_silence_never_stops_amended_witness :
    ((fun st => continuous_step st CaptureEvent.waitTimeout)^[5]
        { isRecording := true, isPaused := false, segments := [0, 1] })
      = { isRecording := true, isPaused := false, segments := [0, 1] } ∧
    (((fun st => improved_continuous_step st CaptureEvent.waitTimeout)^[7]
        { isRecording := true, segments := [], segmentCount := 0,
          silenceCount := 0 }).isRecording = true) ∧
    ((improved_continuous_step
        { isRecording := true, segments := [0], segmentCount := 1,
          silenceCount := 0 } CaptureEvent.waitTimeout).isRecording = true) ∧
    ((improved_continuous_step
        { isRecording := true, segments := [0], segmentCount := 1,
          silenceCount := 2 } CaptureEvent.waitTimeout).isRecording = false) :=
  ⟨C1_silence_never_stops_amended.1 _ 5,
   C1_silence_never_stops_amended.2.1 _ 7 rfl,
   C1_silence_never_stops_amended.2.2.1 _ (by decide),
   C1_silence_never_stops_amended.2.2.2 _ (by decide) (by decide)⟩

/-- One entry of the batch file list (`self.audio_files` element dict in
`speech_to_text.py`): path, display name (`os.path.basename`), and 1-based
order number. -/
structure BatchFileEntry where
  path : String
  name : String
  order : Nat
deriving DecidableEq

/-- `speech_to_text.py::update_order_numbers` shifted by a starting index:
entry `i` of the remainder receives order `start + i + 1`. -/
def renumberFrom (start : Nat) : List BatchFileEntry → List BatchFileEntry
  | [] => []
  | e :: rest => { e with order := start + 1 } :: renumberFrom (start + 1) rest

/-- `speech_to_text.py::update_order_numbers`: every entry's `order` becomes
its position plus one. -/
def update_order_numbers (l : List BatchFileEntry) : List BatchFileEntry :=
  renumberFrom 0 l

/-- `speech_to_text.py::add_audio_files`: each chosen file is appended with
`order = len(self.audio_files) + 1` evaluated at its own insertion time. -/
def add_audio_files (l : List BatchFileEntry) (chosen : List (String × String)) :
    List BatchFileEntry :=
  chosen.foldl
    (fun acc p => acc ++ [{ path := p.1, name := p.2, order := acc.length + 1 }]) l

/-- Swap the elements at positions `j` and `j + 1`, leaving the list
unchanged when `j + 1` is out of range (the Python tuple-swap
`files[i], files[i-1] = files[i-1], files[i]`). -/
def swapAdj : List BatchFileEntry → Nat → List BatchFileEntry
  | [], _ => []
  | [a], _ => [a]
  | a :: b :: rest, 0 => b :: a :: rest
  | a :: rest, n + 1 => a :: swapAdj rest n

/-- `speech_to_text.py::move_up`: a no-op when nothing valid is selected or
the selection is first; otherwise swap with the previous entry and renumber. -/
def move_up (l : List BatchFileEntry) (idx : Nat) : List BatchFileEntry :=
  if idx = 0 ∨ l.length ≤ idx then l
  else update_order_numbers (swapAdj l (idx - 1))

/-- `speech_to_text.py::move_down`: a no-op when nothing valid is selected or
the selection is last; otherwise swap with the next entry and renumber. -/
def move_down (l : List BatchFileEntry) (idx : Nat) : List BatchFileEntry :=
  if l.length ≤ idx + 1 then l
  else update_order_numbers (swapAdj l idx)

/-- `speech_to_text.py::remove_selected` (with the removal confirmed): a
no-op when nothing valid is selected; otherwise delete the entry and
renumber. -/
def remove_selected (l : List BatchFileEntry) (idx : Nat) : List BatchFileEntry :=
  if l.length ≤ idx then l
  else update_order_numbers (l.eraseIdx idx)

/-- `speech_to_text.py::clear_audio_files`: reset the list to empty. -/
def clear_audio_files : List BatchFileEntry := []

/-- A user operation on the batch file list. -/
inductive FileListOp where
  | add (chosen : List (String × String))
  | removeSelected (idx : Nat)
  | moveUp (idx : Nat)
  | moveDown (idx : Nat)
  | clear

/-- Apply one file-list operation. -/
def applyFileListOp (l : List BatchFileEntry) : FileListOp → List BatchFileEntry
  | .add chosen => add_audio_files l chosen
  | .removeSelected idx => remove_selected l idx
  | .moveUp idx => move_up l idx
  | .moveDown idx => move_down l idx
  | .clear => clear_audio_files

/-- Apply a sequence of file-list operations starting from the empty list the
application boots with. -/
def applyFileListOps (ops : List FileListOp) : List BatchFileEntry :=
  ops.foldl applyFileListOp []

/-- The dense-order invariant: the order fields read off in list position
order are exactly `1, 2, ..., N`. -/
def ordersOk (l : List BatchFileEntry) : Prop :=
  l.map (fun e => e.order) = (List.range l.length).map (fun i => i + 1)

theorem renumberFrom_orders (l : List BatchFileEntry) :
    ∀ start, (renumberFrom start l).map (fun e => e.order)
      = (List.range l.length).map (fun i => start + i + 1) := by
  induction l with
  | nil => intro start; rfl
  | cons a t ih =>
    intro start
    simp only [renumberFrom, List.map_cons, List.length_cons,
      List.range_succ_eq_map, List.map_map]
    rw [ih (start + 1)]
    refine congrArg (fun x => (start + 1) :: x) ?_
    refine List.map_congr_left ?_
    intro i _
    simp only [Function.comp_apply]
    omega

theorem renumberFrom_length (l : List BatchFileEntry) :
    ∀ start, (renumberFrom start l).length = l.length := by
  induction l with
  | nil => intro start; rfl
  | cons a t ih =>
    intro start
    simp [renumberFrom, ih (start + 1)]

theorem update_order_numbers_ok (l : List BatchFileEntry) :
    ordersOk (update_order_numbers l) := by
  unfold ordersOk update_order_numbers
  rw [renumberFrom_length l 0, renumberFrom_orders l 0]
  refine List.map_congr_left ?_
  intro i _
  omega

theorem ordersOk_append_one (l : List BatchFileEntry) (p n : String)
    (h : ordersOk l) :
    ordersOk (l ++ [{ path := p, name := n, order := l.length + 1 }]) := by
  unfold ordersOk at h ⊢
  rw [List.map_append, h, List.length_append]
  simp only [List.map_cons, List.map_nil, List.length_cons, List.length_nil]
  rw [List.range_succ]
  simp

theorem add_audio_files_ok (chosen : List (String × String)) :
    ∀ l, ordersOk l → ordersOk (add_audio_files l chosen) := by
  induction chosen with
  | nil => intro l h; exact h
  | cons p ps ih =>
    intro l h
    show ordersOk (add_audio_files
      (l ++ [{ path := p.1, name := p.2, order := l.length + 1 }]) ps)
    exact ih _ (ordersOk_append_one l p.1 p.2 h)

theorem applyFileListOp_ok (l : List BatchFileEntry) (op : FileListOp)
    (h : ordersOk l) : ordersOk (applyFileListOp l op) := by
  cases op with
  | add chosen => exact add_audio_files_ok chosen l h
  | removeSelected idx =>
    show ordersOk (if l.length ≤ idx then l else update_order_numbers (l.eraseIdx idx))
    by_cases hc : l.length ≤ idx
    · rw [if_pos hc]; exact h
    · rw [if_neg hc]; exact update_order_numbers_ok _
  | moveUp idx =>
    show ordersOk (if idx = 0 ∨ l.length ≤ idx then l
      else update_order_numbers (swapAdj l (idx - 1)))
    by_cases hc : idx = 0 ∨ l.length ≤ idx
    · rw [if_pos hc]; exact h
    · rw [if_neg hc]; exact update_order_numbers_ok _
  | moveDown idx =>
    show ordersOk (if l.length ≤ idx + 1 then l
      else update_order_numbers (swapAdj l idx))
    by_cases hc : l.length ≤ idx + 1
    · rw [if_pos hc]; exact h
    · rw [if_neg hc]; exact update_order_numbers_ok _
  | clear => exact rfl

/-- Claim C9: after every sequence of file-list operations (adding files,
removing the selected file, moving a file up or down, clearing the list)
starting from the empty list the application boots with, the order fields of
the N remaining entries read off in position order are exactly the dense
sequence 1..N — no gaps, no duplicates, each entry's order matching its
position. -/
theorem C9_order_invariant (ops : List FileListOp) :
    (applyFileListOps ops).map (fun e => e.order)
      = (List.range (applyFileListOps ops).length).map (fun i => i + 1) := by
  suffices h : ∀ (ops : List FileListOp) (l : List BatchFileEntry),
      ordersOk l → ordersOk (ops.foldl applyFileListOp l) by
    exact h ops [] rfl
  intro ops
  induction ops with
  | nil => intro l h; exact h
  | cons op rest ih =>
    intro l h
    exact ih _ (applyFileListOp_ok l op h)

/-- Python `int(...)` on a real value: truncation toward zero. -/
def pyInt (q : ℚ) : ℤ := if 0 ≤ q then ⌊q⌋ else ⌈q⌉

/-- Python `f"{n:02d}"`: two-digit zero padding (wider values print in
full). -/
def pad2 (i : ℤ) : String :=
  if 0 ≤ i ∧ i < 10 then "0" ++ toString i else toString i

/-- The body of `speech_to_text.py::format_timestamp` after
`total_seconds = int(seconds)`.  Python `//` and `%` are floor
division/modulus, which agree with Lean's Int `/` and `%` for the positive
divisors 3600 and 60 used here. -/
def formatTotal (total : ℤ) : String :=
  let hours := total / 3600
  let minutes := total % 3600 / 60
  let secs := total % 60
  if 0 < hours then
    "[" ++ pad2 hours ++ ":" ++ pad2 minutes ++ ":" ++ pad2 secs ++ "]"
  else
    "[" ++ pad2 minutes ++ ":" ++ pad2 secs ++ "]"

/-- `speech_to_text.py::format_timestamp`: truncate the second count to an
integer and render `[MM:SS]`, or `[HH:MM:SS]` once there is a nonzero hour
count. -/
def format_timestamp (seconds : ℚ) : String :=
  formatTotal (pyInt seconds)

theorem pyInt_of_nonneg (q : ℚ) (h : 0 ≤ q) : pyInt q = ⌊q⌋ := if_pos h

/-- Claim C10: for non-negative inputs `format_timestamp` renders only
`floor(seconds)` — sub-second differences never change the output — and the
rendered shape is `[MM:SS]` exactly when `floor(seconds) < 3600` and
`[HH:MM:SS]` otherwise. -/
theorem C10_format_timestamp_truncates (s t : ℚ) (hs : 0 ≤ s) (ht : 0 ≤ t) :
    format_timestamp s = format_timestamp ((⌊s⌋ : ℚ)) ∧
    (⌊s⌋ = ⌊t⌋ → format_timestamp s = format_timestamp t) ∧
    (⌊s⌋ < 3600 →
      format_timestamp s
        = "[" ++ pad2 (⌊s⌋ / 60) ++ ":" ++ pad2 (⌊s⌋ % 60) ++ "]") ∧
    (3600 ≤ ⌊s⌋ →
      format_timestamp s
        = "[" ++ pad2 (⌊s⌋ / 3600) ++ ":" ++ pad2 (⌊s⌋ % 3600 / 60) ++ ":"
            ++ pad2 (⌊s⌋ % 60) ++ "]") := by
  have hfloor : (0 : ℤ) ≤ ⌊s⌋ := Int.floor_nonneg.mpr hs
  have hcast : pyInt ((⌊s⌋ : ℚ)) = ⌊s⌋ := by
    rw [pyInt_of_nonneg _ (by exact_mod_cast hfloor), Int.floor_intCast]
  refine ⟨?_, ?_, ?_, ?_⟩
  · unfold format_timestamp
    rw [pyInt_of_nonneg s hs, hcast]
  · intro h
    unfold format_timestamp
    rw [pyInt_of_nonneg s hs, pyInt_of_nonneg t ht, h]
  · intro hlt
    unfold format_timestamp
    rw [pyInt_of_nonneg s hs]
    unfold formatTotal
    have hh : ⌊s⌋ / 3600 = 0 := by omega
    have hm : ⌊s⌋ % 3600 = ⌊s⌋ := by omega
    rw [hh, hm]
    simp
  · intro hge
    unfold format_timestamp
    rw [pyInt_of_nonneg s hs]
    unfold formatTotal
    have hh : 0 < ⌊s⌋ / 3600 := by omega
    rw [if_pos hh]

/-- Witness for C10: 7.5 s and 7.2 s share floor 7 and render identically,
and 3725.9 s renders in the hour form. -/
theorem C10_format_timestamp_truncates_witness :
    (0 : ℚ) ≤ 15 / 2 ∧ (0 : ℚ) ≤ 36 / 5 ∧
    format_timestamp (15 / 2 : ℚ) = format_timestamp (36 / 5 : ℚ) ∧
    format_timestamp (37259 / 10 : ℚ)
      = "[" ++ pad2 (⌊(37259 / 10 : ℚ)⌋ / 3600) ++ ":"
          ++ pad2 (⌊(37259 / 10 : ℚ)⌋ % 3600 / 60) ++ ":"
          ++ pad2 (⌊(37259 / 10 : ℚ)⌋ % 60) ++ "]" :=
  ⟨by norm_num, by norm_num,
   (C10_format_timestamp_truncates (15 / 2) (36 / 5)
      (by norm_num) (by norm_num)).2.1 (by norm_num),
   (C10_format_timestamp_truncates (37259 / 10) 0
      (by norm_num) le_rfl).2.2.2 (by norm_num)⟩

/-- Whitespace as recognized by Python `str.strip` / `str.split`, restricted
to the whitespace characters this program's texts contain. -/
def pyIsSpace (c : Char) : Bool := c.isWhitespace

/-- Python `str.strip()`: drop whitespace from both ends. -/
def pyStrip (l : List Char) : List Char :=
  ((l.dropWhile pyIsSpace).reverse.dropWhile pyIsSpace).reverse

/-- The sentence-ending punctuation class of
`speech_to_text.py::split_into_sentences` (`[。！？；.!?;]`; the trailing
`\s*` of the pattern is absorbed by the subsequent strip). -/
def sentencePunct (c : Char) : Bool :=
  c == '。' || c == '！' || c == '？' || c == '；' ||
  c == '.' || c == '!' || c == '?' || c == ';'

/-- Split a character list at every character satisfying `p` (the separator
characters are dropped; empty pieces are kept, as `re.split` keeps them). -/
def splitOnPred (p : Char → Bool) : List Char → List (List Char)
  | [] => [[]]
  | c :: rest =>
    match splitOnPred p rest with
    | [] => if p c then [[], []] else [[c]]
    | h :: t => if p c then [] :: h :: t else (c :: h) :: t

/-- `speech_to_text.py::split_into_sentences`: split on sentence punctuation,
strip each piece, and keep only the non-empty results. -/
def split_into_sentences (text : List Char) : List (List Char) :=
  ((splitOnPred sentencePunct text).map pyStrip).filter (fun s => !s.isEmpty)

/-- CJK unified ideograph test of `get_estimated_speech_duration`
(Python `'一' <= c <= '鿿'`). -/
def isCJK (c : Char) : Bool := 0x4e00 ≤ c.toNat && c.toNat ≤ 0x9fff

/-- Python `str.isalpha`, restricted to the character classes this program's
texts contain: ASCII letters and CJK unified ideographs (both count as
alphabetic in Python). -/
def pyIsAlphaChar (c : Char) : Bool := c.isAlpha || isCJK c

/-- Python `w.isalpha()` on a word: non-empty and all characters
alphabetic. -/
def pyIsAlpha (w : List Char) : Bool := !w.isEmpty && w.all pyIsAlphaChar

/-- Python `text.split()` with no separator: split on whitespace, dropping
empty pieces. -/
def pySplitWhitespace (text : List Char) : List (List Char) :=
  (splitOnPred pyIsSpace text).filter (fun s => !s.isEmpty)

/-- `speech_to_text.py::get_estimated_speech_duration`: CJK characters at
200 per minute plus alphabetic words at 150 per minute, in seconds, floored
at 10 seconds. -/
def get_estimated_speech_duration (text : List Char) : ℚ :=
  let chineseChars := (text.filter isCJK).length
  let englishWords := ((pySplitWhitespace text).filter pyIsAlpha).length
  let chineseDuration := (chineseChars : ℚ) / 200 * 60
  let englishDuration := (englishWords : ℚ) / 150 * 60
  max (chineseDuration + englishDuration) 10

/-- The sentence loop of `speech_to_text.py::add_timestamps_to_text`:
walk the sentences with the running `current_time`; a sentence that is
non-empty after stripping is emitted with the current time, which then
advances by `time_per_sentence`; an empty one is skipped without advancing.
The rendering of each emitted pair to `"{timestamp} {sentence}"` is factored
out into `renderStamped`. -/
def stampLoop (timePerSentence : ℚ) :
    List (List Char) → ℚ → List (ℚ × List Char)
  | [], _ => []
  | s :: rest, cur =>
    if (pyStrip s).isEmpty then stampLoop timePerSentence rest cur
    else (cur, pyStrip s) :: stampLoop timePerSentence rest (cur + timePerSentence)

/-- Render one emitted sentence as `f"{timestamp} {sentence}"`. -/
def renderStamped (entry : ℚ × List Char) : List Char :=
  (format_timestamp entry.1).data ++ ' ' :: entry.2

/-- Python `"\n".join`. -/
def joinNl : List (List Char) → List Char
  | [] => []
  | [s] => s
  | s :: rest => s ++ '\n' :: joinNl rest

/-- `speech_to_text.py::add_timestamps_to_text`: pass the text through
unchanged when it is empty or timestamps are disabled or no sentences
survive splitting; otherwise estimate the total duration (defaulting to 60 s
when the estimate is non-positive, a dead branch given the 10 s floor),
divide it evenly over the sentences, and emit one timestamped line per
non-empty sentence. -/
def add_timestamps_to_text (enableTimestamps : Bool) (text : List Char)
    (startTime : ℚ) : List Char :=
  if text.isEmpty || !enableTimestamps then text
  else
    let sentences := split_into_sentences text
    if sentences.isEmpty then text
    else
      let totalDuration0 := get_estimated_speech_duration text
      let totalDuration := if totalDuration0 ≤ 0 then 60 else totalDuration0
      let timePerSentence := totalDuration / (sentences.length : ℚ)
      joinNl ((stampLoop timePerSentence sentences startTime).map renderStamped)

theorem dropWhile_dropWhile (p : Char → Bool) (l : List Char) :
    (l.dropWhile p).dropWhile p = l.dropWhile p := by
  induction l with
  | nil => rfl
  | cons a t ih =>
    by_cases h : p a
    · rw [List.dropWhile_cons_of_pos h]
      exact ih
    · rw [List.dropWhile_cons_of_neg h, List.dropWhile_cons_of_neg h]

theorem head_dropWhile_false (p : Char → Bool) (l : List Char) (a : Char)
    (h : (l.dropWhile p).head? = some a) : p a = false := by
  induction l with
  | nil => simp [List.dropWhile] at h
  | cons b t ih =>
    by_cases hb : p b
    · rw [List.dropWhile_cons_of_pos hb] at h
      exact ih h
    · rw [List.dropWhile_cons_of_neg hb] at h
      simp only [List.head?_cons, Option.some_inj] at h
      rw [← h]
      exact Bool.not_eq_true _ ▸ (Bool.eq_false_iff.mpr hb)

theorem dropWhile_eq_self_of_head (p : Char → Bool) (l : List Char)
    (h : ∀ a, l.head? = some a → p a = false) : l.dropWhile p = l := by
  cases l with
  | nil => rfl
  | cons a t =>
    have ha := h a rfl
    rw [List.dropWhile_cons_of_neg (by rw [ha]; exact Bool.false_ne_true)]

theorem pyStrip_idem (l : List Char) : pyStrip (pyStrip l) = pyStrip l := by
  unfold pyStrip
  set A := l.dropWhile pyIsSpace with hA
  set B := A.reverse.dropWhile pyIsSpace with hB
  have hpre : B.reverse <+: A := by
    have hsuf : B <:+ A.reverse := hB ▸ List.dropWhile_suffix pyIsSpace
    have : B.reverse <+: A.reverse.reverse := List.reverse_prefix.mpr hsuf
    rwa [List.reverse_reverse] at this
  have h1 : B.reverse.dropWhile pyIsSpace = B.reverse := by
    apply dropWhile_eq_self_of_head
    intro a ha
    obtain ⟨tail, htail⟩ := hpre
    have hheadA : A.head? = some a := by
      cases hrev : B.reverse with
      | nil => rw [hrev] at ha; simp at ha
      | cons x xs =>
        rw [hrev] at ha htail
        simp only [List.head?_cons, Option.some_inj] at ha
        rw [← htail, List.cons_append, List.head?_cons, ha]
    exact head_dropWhile_false pyIsSpace l a (hA ▸ hheadA)
  rw [h1, List.reverse_reverse, hB, dropWhile_dropWhile]

theorem mem_split_into_sentences (text : List Char) (s : List Char)
    (hs : s ∈ split_into_sentences text) :
    pyStrip s = s ∧ s.isEmpty = false := by
  unfold split_into_sentences at hs
  rw [List.mem_filter] at hs
  obtain ⟨hmem, hne⟩ := hs
  rw [List.mem_map] at hmem
  obtain ⟨w, _, hw⟩ := hmem
  refine ⟨?_, by simpa using hne⟩
  rw [← hw]
  exact pyStrip_idem w

theorem stampLoop_times (tps : ℚ) (sentences : List (List Char))
    (hok : ∀ s ∈ sentences, pyStrip s = s ∧ s.isEmpty = false) :
    ∀ start : ℚ, (stampLoop tps sentences start).map Prod.fst
      = (List.range sentences.length).map
          (fun k : ℕ => start + (k : ℚ) * tps) := by
  induction sentences with
  | nil => intro start; rfl
  | cons s rest ih =>
    intro start
    obtain ⟨hfix, hne⟩ := hok s (by simp)
    have hcond : (pyStrip s).isEmpty = false := by rw [hfix]; exact hne
    unfold stampLoop
    rw [hcond]
    simp only [Bool.false_eq_true, if_false, List.map_cons]
    rw [ih (fun x hx => hok x (by simp [hx])) (start + tps)]
    rw [List.length_cons, List.range_succ_eq_map, List.map_cons, List.map_map]
    congr 1
    · norm_num
    · refine List.map_congr_left ?_
      intro k _
      simp only [Function.comp_apply]
      push_cast
      ring

theorem get_estimated_speech_duration_ge_ten (text : List Char) :
    (10 : ℚ) ≤ get_estimated_speech_duration text :=
  le_max_right _ _

/-- Claim C8: the estimated total spoken duration is CJK characters at 200
per minute plus alphabetic words at 150 per minute, floored at the fixed
10-second minimum; it is divided evenly across the split sentences; the
k-th emitted sentence (0-based) receives time `startOffset + k * share`; a
single-sentence text receives exactly `startOffset`; and
`add_timestamps_to_text` renders exactly these timestamped sentences. -/
theorem C8_estimated_mode (text : List Char) (start : ℚ) :
    get_estimated_speech_duration text
      = max ((((text.filter isCJK).length : ℚ) / 200 * 60)
          + ((((pySplitWhitespace text).filter pyIsAlpha).length : ℚ)
              / 150 * 60)) 10 ∧
    ((stampLoop
        (get_estimated_speech_duration text
          / ((split_into_sentences text).length : ℚ))
        (split_into_sentences text) start).map Prod.fst
      = (List.range (split_into_sentences text).length).map
          (fun k : ℕ => start + (k : ℚ)
            * (get_estimated_speech_duration text
                / ((split_into_sentences text).length : ℚ)))) ∧
    ((split_into_sentences text).length = 1 →
      (stampLoop
        (get_estimated_speech_duration text
          / ((split_into_sentences text).length : ℚ))
        (split_into_sentences text) start).map Prod.fst = [start]) ∧
    (text ≠ [] → split_into_sentences text ≠ [] →
      add_timestamps_to_text true text start
        = joinNl ((stampLoop
            (get_estimated_speech_duration text
              / ((split_into_sentences text).length : ℚ))
            (split_into_sentences text) start).map renderStamped)) := by
  have htimes := stampLoop_times
    (get_estimated_speech_duration text / ((split_into_sentences text).length : ℚ))
    (split_into_sentences text) (mem_split_into_sentences text) start
  refine ⟨rfl, htimes, ?_, ?_⟩
  · intro hone
    rw [htimes, hone]
    have hr1 : List.range 1 = [0] := rfl
    rw [hr1]
    simp
  · intro hne hsne
    have h1 : text.isEmpty = false := by
      cases text with
      | nil => exact absurd rfl hne
      | cons a t => rfl
    have h2 : (split_into_sentences text).isEmpty = false := by
      cases hsp : split_into_sentences text with
      | nil => exact absurd hsp hsne
      | cons a t => rfl
    have h3 : ¬ get_estimated_speech_duration text ≤ 0 := by
      have := get_estimated_speech_duration_ge_ten text
      linarith
    unfold add_timestamps_to_text
    simp only [h1, h2, Bool.not_true, Bool.or_false, Bool.false_eq_true,
      if_false]
    rw [if_neg h3]

/-- Witness for C8 at the two-sentence text `"Hello there. Bye."` with start
offset 5: the emitted times are 5 and 5 + share, and the single-sentence
text `"Hi."` receives exactly the start offset. -/
theorem C8_estimated_mode_witness :
    (('H' :: 'e' :: 'l' :: 'l' :: 'o' :: ' ' :: 't' :: 'h' :: 'e' :: 'r'
        :: 'e' :: '.' :: ' ' :: 'B' :: 'y' :: 'e' :: '.' :: []) ≠ [] ∧
      split_into_sentences
        ('H' :: 'e' :: 'l' :: 'l' :: 'o' :: ' ' :: 't' :: 'h' :: 'e' :: 'r'
          :: 'e' :: '.' :: ' ' :: 'B' :: 'y' :: 'e' :: '.' :: []) ≠ [] ∧
      add_timestamps_to_text true
        ('H' :: 'e' :: 'l' :: 'l' :: 'o' :: ' ' :: 't' :: 'h' :: 'e' :: 'r'
          :: 'e' :: '.' :: ' ' :: 'B' :: 'y' :: 'e' :: '.' :: []) 5
        = joinNl ((stampLoop
            (get_estimated_speech_duration
              ('H' :: 'e' :: 'l' :: 'l' :: 'o' :: ' ' :: 't' :: 'h' :: 'e'
                :: 'r' :: 'e' :: '.' :: ' ' :: 'B' :: 'y' :: 'e' :: '.' :: [])
              / ((split_into_sentences
                  ('H' :: 'e' :: 'l' :: 'l' :: 'o' :: ' ' :: 't' :: 'h' :: 'e'
                    :: 'r' :: 'e' :: '.' :: ' ' :: 'B' :: 'y' :: 'e' :: '.'
                    :: [])).length : ℚ))
            (split_into_sentences
              ('H' :: 'e' :: 'l' :: 'l' :: 'o' :: ' ' :: 't' :: 'h' :: 'e'
                :: 'r' :: 'e' :: '.' :: ' ' :: 'B' :: 'y' :: 'e' :: '.' :: []))
            5).map renderStamped)) ∧
    ((split_into_sentences ('H' :: 'i' :: '.' :: [])).length = 1 ∧
      (stampLoop
        (get_estimated_speech_duration ('H' :: 'i' :: '.' :: [])
          / ((split_into_sentences ('H' :: 'i' :: '.' :: [])).length : ℚ))
        (split_into_sentences ('H' :: 'i' :: '.' :: []))
        7).map Prod.fst = [7]) :=
  ⟨⟨by decide, by decide,
    (C8_estimated_mode _ 5).2.2.2 (by decide) (by decide)⟩,
   ⟨by decide, (C8_estimated_mode _ 7).2.2.1 (by decide)⟩⟩

/-- One native segment reported by the local model's `transcribe`:
its start time in seconds (`segment["start"]`) and its text
(`segment["text"]`). -/
structure NativeSeg where
  startSec : ℚ
  text : List Char

/-- The except-branch of `speech_to_text.py::get_whisper_timestamps`:
re-recognize the audio (`perform_recognition`, whose output is passed in as
`recognizedText`, `none` when it failed) and hand the text to
`add_timestamps_to_text`; a `None` text passes through the falsy check there
and is returned unchanged. -/
def fallbackAnnotate (recognizedText : Option (List Char))
    (enableTimestamps : Bool) (startTime : ℚ) : Option (List Char) :=
  match recognizedText with
  | none => none
  | some t => some (add_timestamps_to_text enableTimestamps t startTime)

/-- `speech_to_text.py::get_whisper_timestamps`.  When the model is not
loaded the function raises, landing in the except branch; `transcribed` is
the native segment list of `whisper_model.transcribe` (`none` when the call
raised, likewise landing in the except branch).  On success every segment
whose stripped text is non-empty is rendered as
`f"{format_timestamp(start_time + segment_start)} {text}"` and the lines are
joined with newlines — a successful call with zero usable segments therefore
returns the empty string without falling back. -/
def get_whisper_timestamps (whisperLoaded : Bool)
    (transcribed : Option (List NativeSeg))
    (recognizedText : Option (List Char))
    (enableTimestamps : Bool) (startTime : ℚ) : Option (List Char) :=
  if whisperLoaded then
    match transcribed with
    | some segs =>
        some (joinNl (segs.filterMap (fun sg =>
          let t := pyStrip sg.text
          if t.isEmpty then none
          else some ((format_timestamp (startTime + sg.startSec)).data
              ++ ' ' :: t))))
    | none => fallbackAnnotate recognizedText enableTimestamps startTime
  else fallbackAnnotate recognizedText enableTimestamps startTime

/-- Claim C5 counterexample: with the model loaded and a successful
transcription reporting zero native segments, `get_whisper_timestamps`
returns the empty annotation for the non-empty recognized text `"hi"` — it
neither falls back to estimated mode nor produces non-empty output. -/
theorem C5_zero_segments_counterexample :
    get_whisper_timestamps true (some []) (some ('h' :: 'i' :: [])) true 0
      = some [] ∧
    ('h' :: 'i' :: ([] : List Char)) ≠ [] :=
  ⟨rfl, by decide⟩

/-- Claim C5 (amended): `get_whisper_timestamps` falls back to estimated
mode over the recognized text exactly when the exact path raises — the model
is not loaded, or the transcription call itself fails; a successful
transcription with zero native segments instead yields the empty annotation,
so non-empty input text can produce empty output. -/
theorem C5_fallback_amended (whisperLoaded : Bool)
    (transcribed : Option (List NativeSeg))
    (recognizedText : Option (List Char)) (enableTs : Bool) (st : ℚ) :
    (whisperLoaded = false →
      get_whisper_timestamps whisperLoaded transcribed recognizedText
          enableTs st
        = fallbackAnnotate recognizedText enableTs st) ∧
    (transcribed = none →
      get_whisper_timestamps whisperLoaded transcribed recognizedText
          enableTs st
        = fallbackAnnotate recognizedText enableTs st) ∧
    (get_whisper_timestamps true (some []) recognizedText enableTs st
      = some []) := by
  refine ⟨?_, ?_, rfl⟩
  · intro h
    rw [h]
    rfl
  · intro h
    rw [h]
    cases whisperLoaded <;> rfl

/-- Witness for the amended C5 theorem at concrete inputs. -/
theorem C5_fallback_amended_witness :
    (get_whisper_timestamps false (some []) (some ('h' :: 'i' :: [])) true 0
      = fallbackAnnotate (some ('h' :: 'i' :: [])) true 0) ∧
    (get_whisper_timestamps true none (some ('h' :: 'i' :: [])) true 0
      = fallbackAnnotate (some ('h' :: 'i' :: [])) true 0) :=
  ⟨(C5_fallback_amended false (some []) (some ('h' :: 'i' :: [])) true 0).1
      rfl,
   (C5_fallback_amended true none (some ('h' :: 'i' :: [])) true 0).2.1 rfl⟩

/-- Recognition backend selector (`self.engine_var`). -/
inductive Engine where
  | google
  | whisper
deriving DecidableEq

/-- Outcome of one conversion request as shown to the user. -/
inductive ConvOutcome where
  | ok (text : List Char) (engineUsed : Engine)
  | failed (msg : List Char)
deriving DecidableEq

/-- The pre-dispatch step of
`improved_speech_to_text.py::convert_speech_to_text`: it reads
`engine_var`, and when Whisper is selected without a loaded model it inserts
the note `"Whisper模型未載入，切換到Google API..."` into the result pane and
assigns `engine = "google"` — but only to a local variable; the shared
`engine_var` is left untouched.  Returns (substitution reported, local
engine value). -/
def convert_speech_to_text_pre (engineVar : Engine) (whisperLoaded : Bool) :
    Bool × Engine :=
  if engineVar = .whisper ∧ whisperLoaded = false then (true, .google)
  else (false, engineVar)

/-- `improved_speech_to_text.py::perform_conversion`, run afterwards on a
worker thread: it re-reads `self.engine_var.get()` and dispatches on that
value; with Whisper selected and no model loaded it raises
`"Whisper模型未載入"`, which surfaces as a failure result.  `googleText` and
`whisperText` are the texts the respective backends would return. -/
def perform_conversion (engineVar : Engine) (whisperLoaded : Bool)
    (googleText whisperText : List Char) : ConvOutcome :=
  match engineVar with
  | .google => .ok googleText .google
  | .whisper =>
      if whisperLoaded = false then
        .failed ('W' :: 'h' :: 'i' :: 's' :: 'p' :: 'e' :: 'r' :: '模'
            :: '型' :: '未' :: '載' :: '入' :: [])
      else .ok whisperText .whisper

/-- The full request path of `improved_speech_to_text.py`: the UI step
followed by the worker-thread conversion. -/
def convert_speech_to_text (engineVar : Engine) (whisperLoaded : Bool)
    (googleText whisperText : List Char) : Bool × ConvOutcome :=
  let pre := convert_speech_to_text_pre engineVar whisperLoaded
  (pre.1, perform_conversion engineVar whisperLoaded googleText whisperText)

/-- `speech_to_text.py::perform_recognition` restricted to the engine
dispatch: with Whisper selected and no model loaded it raises, and the
outer handler turns any exception into `None` — no fallback to Google is
attempted at all. -/
def perform_recognition_v1 (engineVar : Engine) (whisperLoaded : Bool)
    (googleText whisperText : List Char) : Option (List Char) :=
  match engineVar with
  | .google => some googleText
  | .whisper => if whisperLoaded = false then none else some whisperText

/-- Claim C6 is the intended behavior but the code fails to implement it:
in `improved_speech_to_text.py` the substitution is reported (first
component `true`) yet the conversion still fails with "Whisper模型未載入",
because `perform_conversion` re-reads the unchanged `engine_var` instead of
the substituted local variable — no Google result is produced; and in
`speech_to_text.py`, `perform_recognition` simply returns `None` with no
fallback and no report. -/
theorem C6_fallback_code_bug :
    convert_speech_to_text .whisper false ('g' :: []) ('w' :: [])
      = (true, .failed ('W' :: 'h' :: 'i' :: 's' :: 'p' :: 'e' :: 'r' :: '模'
          :: '型' :: '未' :: '載' :: '入' :: [])) ∧
    (∀ googleText whisperText : List Char,
      convert_speech_to_text .whisper false googleText whisperText
        ≠ (true, .ok googleText .google)) ∧
    perform_recognition_v1 .whisper false ('g' :: []) ('w' :: []) = none := by
  refine ⟨rfl, ?_, rfl⟩
  intro googleText whisperText h
  have h2 := congrArg Prod.snd h
  simp only [convert_speech_to_text, perform_conversion] at h2
  exact absurd h2 (by simp)

/-- Witness for C6 at concrete backend texts. -/
theorem C6_fallback_code_bug_witness :
    convert_speech_to_text .whisper false ('g' :: []) ('w' :: [])
      ≠ (true, .ok ('g' :: []) .google) :=
  C6_fallback_code_bug.2.1 ('g' :: []) ('w' :: [])

/-- One file handed to the batch pipeline.  `duration` is what
`get_audio_duration` returned for it, in seconds (that helper returns the
pydub length on success and `0` when probing raises); `transcript` is what
`convert_single_file` returned (`none` when decoding or recognition
raised). -/
structure BatchFile where
  path : String
  name : List Char
  duration : ℚ
  transcript : Option (List Char)

/-- One section of the assembled batch transcript. -/
structure TranscriptSection where
  fileIndex : Nat
  sourceName : List Char
  startOffset : ℚ
  succeeded : Bool
  body : List Char

/-- Python truthiness of `convert_single_file`'s result as used by
`if text:` — `None` and the empty string are both falsy. -/
def pyTruthy : Option (List Char) → Bool
  | none => false
  | some s => !s.isEmpty

/-- The `'='*50` separator line. -/
def sepLine : List Char := List.replicate 50 '='

/-- `f"檔案 {i+1}: {name}"`. -/
def fileHeader (i : Nat) (name : List Char) : List Char :=
  '檔' :: '案' :: ' ' :: (toString (i + 1)).data ++ ':' :: ' ' :: name

/-- The section title built for a successfully transcribed file, including
the start-time annotation when timestamps are enabled. -/
def sectionTitle (enableTs : Bool) (i : Nat) (name : List Char)
    (elapsed : ℚ) : List Char :=
  '\n' :: sepLine ++ '\n' :: fileHeader i name
    ++ (if enableTs then
          ' ' :: '(' :: '起' :: '始' :: '時' :: '間' :: ':' :: ' '
            :: (format_timestamp elapsed).data ++ ')' :: []
        else [])
    ++ '\n' :: sepLine ++ '\n' :: []

/-- The placeholder section emitted for a file whose conversion failed:
`f"\n{'='*50}\n檔案 {i+1}: {name}\n{'='*50}\n[轉換失敗]\n"`. -/
def failedSectionText (i : Nat) (name : List Char) : List Char :=
  '\n' :: sepLine ++ '\n' :: fileHeader i name ++ '\n' :: sepLine
    ++ '\n' :: '[' :: '轉' :: '換' :: '失' :: '敗' :: ']' :: '\n' :: []

/-- The per-file loop of `speech_to_text.py::process_batch_conversion`.
For each file in list order: convert it, probe its duration, emit one
section — titled and formatted on success (`fmt` stands for the
timestamp-formatting branch applied to the recognized text, itself modelled
by `add_timestamps_to_text` / `get_whisper_timestamps`), the fixed failure
placeholder otherwise — and only then advance the running offset by the
probed duration, whether or not the conversion succeeded. -/
def batchLoop (enableTs : Bool) (fmt : List Char → ℚ → List Char) :
    List BatchFile → Nat → ℚ → List TranscriptSection
  | [], _, _ => []
  | f :: rest, i, elapsed =>
    let body :=
      match f.transcript with
      | some text =>
          if text.isEmpty then failedSectionText i f.name
          else sectionTitle enableTs i f.name elapsed
              ++ (if enableTs then fmt text elapsed else text)
      | none => failedSectionText i f.name
    { fileIndex := i, sourceName := f.name, startOffset := elapsed,
      succeeded := pyTruthy f.transcript, body := body }
      :: batchLoop enableTs fmt rest (i + 1) (elapsed + f.duration)

/-- `speech_to_text.py::process_batch_conversion`: run the loop over the
ordered file list starting at index 0 with `total_elapsed_time = 0`. -/
def process_batch_conversion (enableTs : Bool)
    (fmt : List Char → ℚ → List Char) (files : List BatchFile) :
    List TranscriptSection :=
  batchLoop enableTs fmt files 0 0

theorem batchLoop_length (enableTs : Bool) (fmt : List Char → ℚ → List Char) :
    ∀ (files : List BatchFile) (i : Nat) (elapsed : ℚ),
      (batchLoop enableTs fmt files i elapsed).length = files.length := by
  intro files
  induction files with
  | nil => intro i elapsed; rfl
  | cons f rest ih =>
    intro i elapsed
    simp [batchLoop, ih]

theorem batchLoop_getD (enableTs : Bool) (fmt : List Char → ℚ → List Char)
    (dsec : TranscriptSection) (dfile : BatchFile) :
    ∀ (files : List BatchFile) (k i : Nat) (elapsed : ℚ),
      k < files.length →
      ((batchLoop enableTs fmt files i elapsed).getD k dsec).startOffset
          = elapsed + ((files.take k).map (fun f => f.duration)).sum ∧
      ((batchLoop enableTs fmt files i elapsed).getD k dsec).sourceName
          = (files.getD k dfile).name ∧
      ((batchLoop enableTs fmt files i elapsed).getD k dsec).fileIndex
          = i + k ∧
      ((batchLoop enableTs fmt files i elapsed).getD k dsec).succeeded
          = pyTruthy (files.getD k dfile).transcript ∧
      (pyTruthy (files.getD k dfile).transcript = false →
        ((batchLoop enableTs fmt files i elapsed).getD k dsec).body
          = failedSectionText (i + k) (files.getD k dfile).name) := by
  intro files
  induction files with
  | nil =>
    intro k i elapsed hk
    exact absurd hk (by simp)
  | cons f rest ih =>
    intro k i elapsed hk
    cases k with
    | zero =>
      refine ⟨by simp [batchLoop], by simp [batchLoop], by simp [batchLoop],
        by simp [batchLoop], ?_⟩
      intro hfail
      simp only [batchLoop, List.getD_cons_zero, List.getD_cons_zero] at hfail ⊢
      cases htr : f.transcript with
      | none => simp
      | some text =>
        rw [htr] at hfail
        have : text.isEmpty = true := by
          simpa [pyTruthy] using hfail
        simp [this]
    | succ j =>
      have hj : j < rest.length := by simpa using hk
      have hrec := ih j (i + 1) (elapsed + f.duration) hj
      refine ⟨?_, ?_, ?_, ?_, ?_⟩
      · show ((batchLoop enableTs fmt rest (i + 1)
            (elapsed + f.duration)).getD j dsec).startOffset = _
        rw [hrec.1]
        simp only [List.take_succ_cons, List.map_cons, List.sum_cons]
        ring
      · exact hrec.2.1
      · show ((batchLoop enableTs fmt rest (i + 1)
            (elapsed + f.duration)).getD j dsec).fileIndex = _
        rw [hrec.2.2.1]
        omega
      · exact hrec.2.2.2.1
      · intro hfail
        show ((batchLoop enableTs fmt rest (i + 1)
            (elapsed + f.duration)).getD j dsec).body = _
        rw [hrec.2.2.2.2 hfail]
        have : i + 1 + j = i + (j + 1) := by omega
        rw [this]
        rfl

/-- Claim C2: the batch pipeline processes files strictly in list order —
section k comes from file k — and the start offset recorded in (and handed
to the timestamp synthesizer for) section k equals the sum of the probed
durations of all earlier files, independent of which transcriptions
succeeded. -/
theorem C2_batch_offsets (enableTs : Bool) (fmt : List Char → ℚ → List Char)
    (files : List BatchFile) (dsec : TranscriptSection) (dfile : BatchFile)
    (k : Nat) (hk : k < files.length) :
    (process_batch_conversion enableTs fmt files).length = files.length ∧
    ((process_batch_conversion enableTs fmt files).getD k dsec).startOffset
        = ((files.take k).map (fun f => f.duration)).sum ∧
    ((process_batch_conversion enableTs fmt files).getD k dsec).sourceName
        = (files.getD k dfile).name ∧
    ((process_batch_conversion enableTs fmt files).getD k dsec).fileIndex
        = k := by
  have h := batchLoop_getD enableTs fmt dsec dfile files k 0 0 hk
  unfold process_batch_conversion
  refine ⟨batchLoop_length enableTs fmt files 0 0, ?_, h.2.1, ?_⟩
  · rw [h.1]
    ring
  · rw [h.2.2.1]
    omega

/-- Witness for C2 at the spec's example: durations 30 s and 45 s with the
second file failing, followed by a third file whose section offset is still
75 s. -/
theorem C2_batch_offsets_witness :
    ((process_batch_conversion false (fun t _ => t)
        [{ path := "a.wav", name := 'a' :: [], duration := 30,
           transcript := some ('x' :: []) },
         { path := "b.wav", name := 'b' :: [], duration := 45,
           transcript := none },
         { path := "c.wav", name := 'c' :: [], duration := 10,
           transcript := some ('y' :: []) }]).getD 2
        { fileIndex := 0, sourceName := [], startOffset := 0,
          succeeded := false, body := [] }).startOffset
      = (([({ path := "a.wav", name := 'a' :: [], duration := 30,
              transcript := some ('x' :: []) } : BatchFile),
           { path := "b.wav", name := 'b' :: [], duration := 45,
             transcript := none },
           { path := "c.wav", name := 'c' :: [], duration := 10,
             transcript := some ('y' :: []) }].take 2).map
          (fun f => f.duration)).sum :=
  (C2_batch_offsets false (fun t _ => t)
    [{ path := "a.wav", name := 'a' :: [], duration := 30,
       transcript := some ('x' :: []) },
     { path := "b.wav", name := 'b' :: [], duration := 45,
       transcript := none },
     { path := "c.wav", name := 'c' :: [], duration := 10,
       transcript := some ('y' :: []) }]
    { fileIndex := 0, sourceName := [], startOffset := 0,
      succeeded := false, body := [] }
    { path := "", name := [], duration := 0, transcript := none }
    2 (by decide)).2.1

/-- Claim C7: a batch file whose decoding or recognition failed still yields
exactly one transcript section, marked failed and carrying the fixed
`[轉換失敗]` placeholder body, and the batch still emits one section per
file — a per-file failure never aborts the batch. -/
theorem C7_batch_failure_isolation (enableTs : Bool)
    (fmt : List Char → ℚ → List Char) (files : List BatchFile)
    (dsec : TranscriptSection) (dfile : BatchFile) (k : Nat)
    (hk : k < files.length)
    (hfail : pyTruthy (files.getD k dfile).transcript = false) :
    (process_batch_conversion enableTs fmt files).length = files.length ∧
    ((process_batch_conversion enableTs fmt files).getD k dsec).succeeded
        = false ∧
    ((process_batch_conversion enableTs fmt files).getD k dsec).body
        = failedSectionText k (files.getD k dfile).name := by
  have h := batchLoop_getD enableTs fmt dsec dfile files k 0 0 hk
  unfold process_batch_conversion
  refine ⟨batchLoop_length enableTs fmt files 0 0, ?_, ?_⟩
  · rw [h.2.2.2.1, hfail]
  · have hb := h.2.2.2.2 hfail
    rw [hb]
    simp

/-- Witness for C7: the failing second file of the C2 example batch gets a
failed placeholder section while the batch still has three sections. -/
theorem C7_batch_failure_isolation_witness :
    (process_batch_conversion false (fun t _ => t)
        [{ path := "a.wav", name := 'a' :: [], duration := 30,
           transcript := some ('x' :: []) },
         { path := "b.wav", name := 'b' :: [], duration := 45,
           transcript := none },
         { path := "c.wav", name := 'c' :: [], duration := 10,
           transcript := some ('y' :: []) }]).length = 3 ∧
    ((process_batch_conversion false (fun t _ => t)
        [{ path := "a.wav", name := 'a' :: [], duration := 30,
           transcript := some ('x' :: []) },
         { path := "b.wav", name := 'b' :: [], duration := 45,
           transcript := none },
         { path := "c.wav", name := 'c' :: [], duration := 10,
           transcript := some ('y' :: []) }]).getD 1
        { fileIndex := 0, sourceName := [], startOffset := 0,
          succeeded := false, body := [] }).succeeded = false :=
  have h := C7_batch_failure_isolation false (fun t _ => t)
    [{ path := "a.wav", name := 'a' :: [], duration := 30,
       transcript := some ('x' :: []) },
     { path := "b.wav", name := 'b' :: [], duration := 45,
       transcript := none },
     { path := "c.wav", name := 'c' :: [], duration := 10,
       transcript := some ('y' :: []) }]
    { fileIndex := 0, sourceName := [], startOffset := 0,
      succeeded := false, body := [] }
    { path := "", name := [], duration := 0, transcript := none }
    1 (by decide) (by decide)
  ⟨h.1, h.2.1⟩
